import Mathlib

/-!
Verification model of the PC-Explorer front-end (src/src/App.tsx and
src/src/components/).  The transformation layer of the app — the filter
mini-language `applyFilter`, the scripting DSL `applyScriptSafe`, the
expression rewriter `buildExpression`, and the pipeline / provenance state
machine of the `App` component — is shallowly embedded here.

Modelling conventions:
* JavaScript strings are `String` / `List Char`; the regular expressions of
  the source are small and fixed, and each is translated into an explicit
  executable matcher with JS backtracking semantics.
* JS numbers are modelled as `ℚ` (the claims under study never depend on
  floating-point rounding); `NaN` is `Option.none`.
* The dynamic-code-evaluation primitive `new Function(...)` has no static
  source to translate, so it is a parameter (`JSDyn`): a predicate saying
  which generated bodies the JS parser accepts (`new Function` throws a
  `SyntaxError` otherwise), and an evaluator for the rewritten expression
  against a row, which may throw (modelled as `Except`).
* Timestamps (`Date.now()`) are threaded as an explicit `now : ℕ`.
-/

namespace PCExplorer

/-- JavaScript values as they occur in the rows of this app: CSV cells
(`papaparse` with `dynamicTyping`) and script results. -/
inductive JVal where
  | null : JVal
  | bool : Bool → JVal
  | num : ℚ → JVal
  | str : String → JVal
  deriving DecidableEq

/-- A data row: a JS object, keys in insertion order. -/
abbrev Row := List (String × JVal)

def chStr (l : List Char) : String := String.mk l

/-- JS word character, the `\w` / `\b` class `[A-Za-z0-9_]`. -/
def wordCharB (c : Char) : Bool :=
  decide (('a' ≤ c ∧ c ≤ 'z') ∨ ('A' ≤ c ∧ c ≤ 'Z') ∨ ('0' ≤ c ∧ c ≤ '9') ∨ c = '_')

/-- JS whitespace (`\s`, `String.prototype.trim`): ASCII whitespace plus
no-break space, BOM and the Unicode line separators. -/
def isWsChar (c : Char) : Bool :=
  [' ', '\t', '\n', '\r', '\x0b', '\x0c', '\u00A0', '\u2028', '\u2029', '\uFEFF'].contains c

/-- The class `[a-zA-Z0-9_ ]` used for column names in the filter regexes. -/
def isColChar (c : Char) : Bool :=
  decide (('a' ≤ c ∧ c ≤ 'z') ∨ ('A' ≤ c ∧ c ≤ 'Z') ∨ ('0' ≤ c ∧ c ≤ '9') ∨ c = '_' ∨ c = ' ')

/-- `.` in a JS regex (no `s` flag): any character but a line terminator. -/
def isDotChar (c : Char) : Bool :=
  !([('\n' : Char), '\r', '\u2028', '\u2029'].contains c)

/-- The class `[0-9.+-]` of the numeric filter patterns. -/
def isNumTokChar (c : Char) : Bool :=
  c.isDigit || c == '.' || c == '+' || c == '-'

def dropTrailing (p : Char → Bool) (l : List Char) : List Char :=
  (l.reverse.dropWhile p).reverse

def trimWsL (l : List Char) : List Char :=
  dropTrailing isWsChar (l.dropWhile isWsChar)

/-- `String.prototype.trim()`. -/
def jsTrim (s : String) : String := chStr (trimWsL s.data)

def startsWithL : List Char → List Char → Bool
  | _, [] => true
  | [], _ :: _ => false
  | c :: s, p :: ps => c == p && startsWithL s ps

/-- `String.prototype.includes` on character lists. -/
def containsSub : List Char → List Char → Bool
  | [], pat => pat.isEmpty
  | c :: t, pat => startsWithL (c :: t) pat || containsSub t pat

/-- JS `s.split(sep)` for a single-character separator, on character
lists. -/
def splitOnChar (sep : Char) : List Char → List (List Char)
  | [] => [[]]
  | c :: r =>
      let rest := splitOnChar sep r
      if c = sep then [] :: rest
      else
        match rest with
        | [] => [[c]]
        | h :: t => (c :: h) :: t

/-- `script.split("=")`. -/
def jsSplitEq (s : String) : List String :=
  (splitOnChar '=' s.data).map chStr

/-- ASCII `String.prototype.toLowerCase`. -/
def lowerCh (c : Char) : Char := c.toLower

/-- Numeric value of a decimal digit character. -/
def digitVal (c : Char) : ℕ := c.toNat - 48

def natFromDigits (l : List Char) : ℚ :=
  (l.foldl (fun a c => 10 * a + digitVal c) 0 : ℕ)

def fracFromDigits (l : List Char) : ℚ :=
  l.foldr (fun c acc => ((digitVal c : ℚ) + acc) / 10) 0

/-- An unsigned decimal literal `digits [. digits]` with at least one digit;
`none` is `NaN`. -/
def parseUDec (l : List Char) : Option ℚ :=
  let intPart := l.takeWhile Char.isDigit
  let rest := l.drop intPart.length
  match rest with
  | [] => if intPart.isEmpty then none else some (natFromDigits intPart)
  | '.' :: frac =>
      if frac.all Char.isDigit && !(intPart.isEmpty && frac.isEmpty) then
        some (natFromDigits intPart + fracFromDigits frac)
      else none
  | _ => none

/-- JS `Number(string)`, restricted to the decimal literals this app can
meet (the filter token class is `[0-9.+-]`; hexadecimal, exponent and
`Infinity` forms are outside the modelled fragment and map to `NaN`). -/
def jsNumChars (l : List Char) : Option ℚ :=
  match trimWsL l with
  | [] => some 0
  | '+' :: r => parseUDec r
  | '-' :: r => (parseUDec r).map Neg.neg
  | t => parseUDec t

/-- Decimal digits of the fractional part `x ∈ [0,1)`, to at most `fuel`
places (JS shortest-round-trip float printing, approximated; no claim under
study depends on this formatting). -/
def fracDigitsGo : ℕ → ℚ → List Char
  | 0, _ => []
  | fuel + 1, x =>
      if x = 0 then []
      else
        let y := x * 10
        let d := (Int.toNat ⌊y⌋)
        Nat.digitChar d :: fracDigitsGo fuel (y - (d : ℚ))

/-- JS `String(number)` / JSON serialisation of a number. -/
def numToString (q : ℚ) : String :=
  let a := |q|
  let fr := fracDigitsGo 20 (a - (⌊a⌋ : ℚ))
  (if q < 0 then "-" else "") ++ toString ⌊a⌋ ++
    (if fr.isEmpty then "" else "." ++ chStr fr)

/-- JS `String(v)` for a defined value. -/
def jstrV : JVal → String
  | .null => "null"
  | .bool true => "true"
  | .bool false => "false"
  | .num q => numToString q
  | .str s => s

/-- JS `String(r[col])`; a missing property is `undefined`. -/
def jstrOpt : Option JVal → String
  | none => "undefined"
  | some v => jstrV v

/-- JS `Number(r[col])` (`none` is `NaN`). -/
def rowNum : Option JVal → Option ℚ
  | none => none
  | some .null => some 0
  | some (.bool true) => some 1
  | some (.bool false) => some 0
  | some (.num q) => some q
  | some (.str s) => jsNumChars s.data

/-- First-match property lookup `r[k]`. -/
def rlookup : Row → String → Option JVal
  | [], _ => none
  | (k', v) :: r, k => if k' = k then some v else rlookup r k

/-!
### The five filter regexes of `applyFilter`

Each of `eqRe`, `neqRe`, `gtRe`, `ltRe`, `containsRe` has the form
`^([a-zA-Z0-9_ ]+) \s* OP \s* RHS $`.  The executable matchers below follow
the JS backtracking order: the column group is greedy (longest viable
prefix of column characters first), `\s*` is then forced to the maximal
whitespace run (its follow sets are disjoint from whitespace), and the
right-hand side must reach the end of the string.  `some` is returned
exactly when the regex `test`s true, and the returned pair carries the
captures `m[1]` and `m[2]`.
-/

/-- Compare an operator token, optionally case-insensitively (`/i`). -/
def eqOpL (ci : Bool) (a b : List Char) : Bool :=
  if ci then (a.map lowerCh) == (b.map lowerCh) else a == b

/-- Match `\s* OP \s* "(.*)" $` against the remainder `r`; returns the
quoted capture. -/
def tryQuotedTail (op : List Char) (ci : Bool) (r : List Char) : Option (List Char) :=
  let r1 := r.dropWhile isWsChar
  if eqOpL ci (r1.take op.length) op then
    match (r1.drop op.length).dropWhile isWsChar with
    | [] => none
    | q :: rest =>
        if q == '"' && !rest.isEmpty && rest.getLast? == some '"'
            && rest.dropLast.all isDotChar then
          some rest.dropLast
        else none
  else none

/-- Match `\s* OP \s* ([0-9.+-]+) $` against the remainder `r`. -/
def tryNumTail (op : Char) (r : List Char) : Option (List Char) :=
  match r.dropWhile isWsChar with
  | [] => none
  | c :: rest =>
      if c == op then
        let r2 := rest.dropWhile isWsChar
        if !r2.isEmpty && r2.all isNumTokChar then some r2 else none
      else none

/-- Greedy search for the column capture: try the longest prefix of column
characters first and shrink until the tail matcher succeeds. -/
def searchColGo (tail : List Char → Option (List Char)) (s : List Char) :
    ℕ → Option (List Char × List Char)
  | 0 => none
  | k + 1 =>
      match tail (s.drop (k + 1)) with
      | some v => some (s.take (k + 1), v)
      | none => searchColGo tail s k

def searchCol (tail : List Char → Option (List Char)) (s : List Char) :
    Option (List Char × List Char) :=
  searchColGo tail s (s.takeWhile isColChar).length

/-- `/^([a-zA-Z0-9_ ]+)\s*==\s*"(.*)"$/`. -/
def matchEqL (s : List Char) : Option (List Char × List Char) :=
  searchCol (tryQuotedTail ['=', '='] false) s

/-- `/^([a-zA-Z0-9_ ]+)\s*!=\s*"(.*)"$/`. -/
def matchNeqL (s : List Char) : Option (List Char × List Char) :=
  searchCol (tryQuotedTail ['!', '='] false) s

/-- `/^([a-zA-Z0-9_ ]+)\s*>\s*([0-9.+-]+)$/`. -/
def matchGtL (s : List Char) : Option (List Char × List Char) :=
  searchCol (tryNumTail '>') s

/-- `/^([a-zA-Z0-9_ ]+)\s*<\s*([0-9.+-]+)$/`. -/
def matchLtL (s : List Char) : Option (List Char × List Char) :=
  searchCol (tryNumTail '<') s

/-- `/^([a-zA-Z0-9_ ]+)\s*contains\s*"(.*)"$/i`. -/
def matchContainsL (s : List Char) : Option (List Char × List Char) :=
  searchCol (tryQuotedTail "contains".data true) s

/-- `applyFilter` (App.tsx:86-127): empty expressions pass the data
through; otherwise the trimmed expression must match one of the five fixed
patterns, tried in source order, and the corresponding row predicate is
applied; anything else throws. -/
def applyFilter (data : List Row) (expr : String) : Except String (List Row) :=
  if expr = "" then .ok data
  else
    let s := (jsTrim expr).data
    match matchEqL s with
    | some (craw, val) =>
        let col := jsTrim (chStr craw)
        .ok (data.filter (fun r => jstrOpt (rlookup r col) == chStr val))
    | none =>
    match matchNeqL s with
    | some (craw, val) =>
        let col := jsTrim (chStr craw)
        .ok (data.filter (fun r => jstrOpt (rlookup r col) != chStr val))
    | none =>
    match matchGtL s with
    | some (craw, val) =>
        let col := jsTrim (chStr craw)
        let v := jsNumChars val
        .ok (data.filter (fun r =>
          match rowNum (rlookup r col), v with
          | some a, some b => decide (b < a)
          | _, _ => false))
    | none =>
    match matchLtL s with
    | some (craw, val) =>
        let col := jsTrim (chStr craw)
        let v := jsNumChars val
        .ok (data.filter (fun r =>
          match rowNum (rlookup r col), v with
          | some a, some b => decide (a < b)
          | _, _ => false))
    | none =>
    match matchContainsL s with
    | some (craw, val) =>
        let col := jsTrim (chStr craw)
        let v := val.map lowerCh
        .ok (data.filter (fun r =>
          containsSub ((jstrOpt (rlookup r col)).data.map lowerCh) v))
    | none =>
        .error "Unsupported filter expression. Use: col == \"Value\", col != \"Value\", col > 5, col < 10, col contains \"str\""

example : matchEqL "country == \"China\"".data =
    some ("country ".data, "China".data) := by decide

example : matchGtL "pop > 100000".data = some ("pop ".data, "100000".data) := by
  decide

example : matchContainsL "name CONTAINS \"x\"".data =
    some ("name ".data, "x".data) := by decide

example : matchEqL "pop >= 3".data = none := by decide

example : matchEqL "a  == \"v\"".data = some ("a  ".data, "v".data) := by decide

example : matchEqL "a = = \"v\"".data = none := by decide

example : matchContainsL "a contains contains \"v\"".data =
    some ("a contains ".data, "v".data) := by decide

example : matchGtL "a > 1.2.3".data = some ("a ".data, "1.2.3".data) := by decide

example : matchGtL "a > 1 2".data = none := by decide

example : matchEqL "a == \"x\" == \"y\"".data =
    some ("a ".data, ("x" ++ "\" == \"" ++ "y").data) := by decide

example : applyFilter [[("a", JVal.num 1)]] "" = .ok [[("a", JVal.num 1)]] := rfl

example :
    applyFilter [[("a", JVal.str "x")], [("a", JVal.str "X")]] "a contains \"x\"" =
      .ok [[("a", JVal.str "x")], [("a", JVal.str "X")]] := rfl

example : applyFilter [[("a", JVal.num 1)]] "a > " = .error
    "Unsupported filter expression. Use: col == \"Value\", col != \"Value\", col > 5, col < 10, col contains \"str\"" := rfl

/-!
### The expression rewriter `buildExpression`

`buildExpression` (App.tsx:51-65) performs two passes of
`String.prototype.replace` with regexes of the shape `/\bLIT\b/g`: first
the seven safe function names, then the column names (regex-escaped,
longest first).  `replaceWordAllL` is the semantics of such a replace: a
left-to-right scan over the original string; at a position where the
literal occurs with a JS word boundary (`\b`) on both sides, the
substituted replacement is emitted and the scan resumes after the
occurrence (replacements are never rescanned, and boundaries are judged on
the original characters).  The replacement string undergoes the
`GetSubstitution` expansion of `String.prototype.replace`: these regexes
have no capture groups, so `$$`, `$&`, `` $` `` and `$'` are active while
`$n` and `$<...>` stay literal — a column name containing such a pattern
(e.g. `a$&b`) really is expanded by the source.
-/

/-- JS `\b`: the two sides differ in word-character-ness (`none` = edge of
the string, a non-word side). -/
def bndB (a b : Option Char) : Bool :=
  (match a with | some c => wordCharB c | none => false)
    != (match b with | some c => wordCharB c | none => false)

/-- `GetSubstitution` for a regex with no capture groups: in the
replacement string, `$$` yields `$`, `$&` the matched text, `` $` `` the
part of the original subject before the match, `$'` the part after it; a
`$` followed by anything else (digits, `<`, end of string) is literal. -/
def expandDollar (matched before after : List Char) : List Char → List Char
  | [] => []
  | c :: r =>
      if c = '$' then
        match r with
        | [] => ['$']
        | d :: r2 =>
            if d = '$' then '$' :: expandDollar matched before after r2
            else if d = '&' then matched ++ expandDollar matched before after r2
            else if d = '\x60' then before ++ expandDollar matched before after r2
            else if d = '\x27' then after ++ expandDollar matched before after r2
            else '$' :: expandDollar matched before after (d :: r2)
      else c :: expandDollar matched before after r

/-- Scan for `/\bPAT\b/g` (nonempty literal `pat`), replacing each match by
the `$`-expanded `repl`; `pre` accumulates the original characters already
passed (its last character decides the left word boundary, and it is the
`` $` `` portion).  `fuel` dominates the remaining length, so the `0` case
is unreachable. -/
def replaceGo (pat repl : List Char) : ℕ → List Char → List Char → List Char
  | 0, _, s => s
  | fuel + 1, pre, s =>
      match s with
      | [] => []
      | c :: rest =>
          if startsWithL (c :: rest) pat && bndB pre.getLast? (some c)
              && bndB pat.getLast? (((c :: rest).drop pat.length).head?) then
            expandDollar pat pre ((c :: rest).drop pat.length) repl
              ++ replaceGo pat repl fuel (pre ++ pat) ((c :: rest).drop pat.length)
          else
            c :: replaceGo pat repl fuel (pre ++ [c]) rest

/-- `/\b\b/g` (empty literal): an empty match at every word boundary; JS
advances one character past each empty match, and `$&` expands to the
empty string. -/
def replaceEmptyGo (repl : List Char) : List Char → List Char → List Char
  | pre, [] => if bndB pre.getLast? none then expandDollar [] pre [] repl else []
  | pre, c :: rest =>
      (if bndB pre.getLast? (some c) then expandDollar [] pre (c :: rest) repl
        else []) ++ c :: replaceEmptyGo repl (pre ++ [c]) rest

/-- `s.replace(new RegExp("\\b" + LIT + "\\b", "g"), repl)` for a literal
pattern. -/
def replaceWordAllL (pat repl s : List Char) : List Char :=
  match pat with
  | [] => replaceEmptyGo repl [] s
  | _ :: _ => replaceGo pat repl (s.length + 1) [] s

/-- The same scan with the replacement spliced verbatim — the
specification's reading of the substitution, accurate exactly when the
replacement contains no `$`. -/
def replaceGoVerbatim (pat repl : List Char) : ℕ → List Char → List Char → List Char
  | 0, _, s => s
  | fuel + 1, pre, s =>
      match s with
      | [] => []
      | c :: rest =>
          if startsWithL (c :: rest) pat && bndB pre.getLast? (some c)
              && bndB pat.getLast? (((c :: rest).drop pat.length).head?) then
            repl ++ replaceGoVerbatim pat repl fuel (pre ++ pat) ((c :: rest).drop pat.length)
          else
            c :: replaceGoVerbatim pat repl fuel (pre ++ [c]) rest

def replaceEmptyGoVerbatim (repl : List Char) : List Char → List Char → List Char
  | pre, [] => if bndB pre.getLast? none then repl else []
  | pre, c :: rest =>
      (if bndB pre.getLast? (some c) then repl else [])
        ++ c :: replaceEmptyGoVerbatim repl (pre ++ [c]) rest

/-- Word-boundary replacement with a verbatim replacement string. -/
def replaceWordVerbatimL (pat repl s : List Char) : List Char :=
  match pat with
  | [] => replaceEmptyGoVerbatim repl [] s
  | _ :: _ => replaceGoVerbatim pat repl (s.length + 1) [] s

/-- The metacharacter class `[-\/\\^$*+?.()|[\]{}]` escaped by the source
before a column name is spliced into a regex. -/
def metaChar (c : Char) : Bool :=
  ['-', '/', '\\', '^', '$', '*', '+', '?', '.', '(', ')', '|', '[', ']',
    '\x7b', '\x7d'].contains c

/-- `c.replace(/[-\/\\^$*+?.()|[\]{}]/g, "\\$&")`. -/
def escapeRegExpL : List Char → List Char
  | [] => []
  | c :: r => (if metaChar c then ['\\', c] else [c]) ++ escapeRegExpL r

/-- The literal character sequence denoted by a regex made only of literal
characters and backslash escapes (every escaped metacharacter matches
itself). -/
def unescapeLitL : List Char → List Char
  | [] => []
  | [c] => [c]
  | c :: d :: r =>
      if c = '\\' then d :: unescapeLitL r else c :: unescapeLitL (d :: r)

/-- `JSON.stringify` escaping of one string character. -/
def jsonEscChar (c : Char) : List Char :=
  if c = '"' then ['\\', '"']
  else if c = '\\' then ['\\', '\\']
  else if c = '\n' then ['\\', 'n']
  else if c = '\r' then ['\\', 'r']
  else if c = '\t' then ['\\', 't']
  else if c = '\x08' then ['\\', 'b']
  else if c = '\x0c' then ['\\', 'f']
  else if c.toNat < 32 then
    ['\\', 'u', '0', '0', Nat.digitChar (c.toNat / 16), Nat.digitChar (c.toNat % 16)]
  else [c]

/-- `JSON.stringify` of a string. -/
def jsonQuote (s : String) : String :=
  chStr ('"' :: s.data.foldr (fun c acc => jsonEscChar c ++ acc) ['"'])

/-- A character `JSON.stringify` emits verbatim. -/
def jsonPlainChar (c : Char) : Bool :=
  !(c == '"' || c == '\\' || decide (c.toNat < 32))

/-- `SAFE_FUNCS` (App.tsx:37-45), in `Object.keys` insertion order. -/
def SAFE_FUNCS : List (String × String) :=
  [("abs", "Math.abs"), ("sqrt", "Math.sqrt"), ("log", "Math.log"),
    ("round", "Math.round"), ("min", "Math.min"), ("max", "Math.max"),
    ("pow", "Math.pow")]

/-- `colIdentifier` (App.tsx:47-49). -/
def colIdentifier (name : String) : String :=
  "__row[" ++ jsonQuote name ++ "]"

/-- Stable insertion of a string into a list of later-input strings sorted
by descending length: `x` goes before the first element of no greater
length, so equal-length names keep their input order. -/
def insertByLen (x : String) : List String → List String
  | [] => [x]
  | y :: ys => if y.length ≤ x.length then x :: y :: ys else y :: insertByLen x ys

/-- `cols.slice().sort((a, b) => b.length - a.length)`: a stable sort by
descending length (JS `Array.prototype.sort` is stable). -/
def jsSortDescLen (cols : List String) : List String :=
  cols.foldr insertByLen []

/-- `buildExpression` (App.tsx:51-65): substitute the safe function names,
then the regex-escaped column names, longest first. -/
def buildExpression (expr : String) (cols : List String) : String :=
  let e1 := SAFE_FUNCS.foldl (fun e p => replaceWordAllL p.1.data p.2.data e) expr.data
  chStr ((jsSortDescLen cols).foldl
    (fun e c => replaceWordAllL (unescapeLitL (escapeRegExpL c.data))
      (colIdentifier c).data e) e1)

/-- The rewriter as the specification words it: every whole-word occurrence
of the seven safe function names becomes the corresponding `Math.*` name
(verbatim), then every whole-word occurrence of each column name, columns
in descending length order, becomes the verbatim row lookup
`__row["<name>"]`. -/
def buildExpressionSpec (expr : String) (cols : List String) : String :=
  let e1 := SAFE_FUNCS.foldl (fun e p => replaceWordVerbatimL p.1.data p.2.data e) expr.data
  chStr ((jsSortDescLen cols).foldl
    (fun e c => replaceWordVerbatimL c.data ("__row[" ++ "\"" ++ c ++ "\"" ++ "]").data e) e1)

example : buildExpression "pow(pop, 0.5)" ["country", "pop"] =
    "Math.pow(__row[\"pop\"], 0.5)" := by decide

example : buildExpression "newpop * 2" ["pop", "newpop"] =
    "__row[\"newpop\"] * 2" := by decide

example : buildExpression "abs(x)" ["abs"] = "Math.__row[\"abs\"](x)" := by decide

example : jsSortDescLen ["a b", "b c"] = ["a b", "b c"] := by decide

example : buildExpression "a b c" ["a b", "b c"] = "__row[\"a b\"] c" := by decide

example : buildExpression "x$$y + 1" ["x$$y"] = "__row[\"x$y\"] + 1" := by decide

example : buildExpression "pop_total + 1" ["pop"] = "pop_total + 1" := by decide

/-!
### The scripting DSL `applyScriptSafe`
-/

/-- The dynamic-code-evaluation primitive: `mkFnOk body` says whether the
JS parser accepts the function body assembled from the rewritten expression
(`new Function` throws a `SyntaxError` otherwise), and `evalExpr e r`
evaluates the rewritten expression `e` with `__row` bound to `r`, either
producing a value or throwing. -/
structure JSDyn where
  mkFnOk : String → Bool
  evalExpr : String → Row → Except Unit JVal

/-- JS `{ ...r, [k]: v }`: replace the value at an existing key in place,
or append the key. -/
def replaceFirstKey : Row → String → JVal → Row
  | [], _, _ => []
  | (k', v') :: rest, k, v =>
      if k' = k then (k, v) :: rest else (k', v') :: replaceFirstKey rest k v

def hasKey (r : Row) (k : String) : Bool :=
  r.any (fun p => p.1 == k)

def setKey (r : Row) (k : String) (v : JVal) : Row :=
  if hasKey r k then replaceFirstKey r k v else r ++ [(k, v)]

/-- Result of a successful script run. -/
structure ScriptResult where
  data : List Row
  newCol : String
  deriving DecidableEq

/-- `applyScriptSafe` (App.tsx:67-84): split on `=` into exactly two
parts, rewrite the right-hand side, build the evaluator
`new Function("__row", "try{ return EXPR; }catch(e){ return null; }")`
(which throws if the assembled body does not parse), and map it over the
rows; a per-row evaluation error yields `null` for that row. -/
def applyScriptSafe (E : JSDyn) (data : List Row) (cols : List String)
    (script : String) : Except String ScriptResult :=
  match jsSplitEq script with
  | [lhs, rhs] =>
      let target := jsTrim lhs
      let expr := jsTrim rhs
      let jsExpr := buildExpression expr cols
      if E.mkFnOk jsExpr then
        let fn : Row → JVal := fun r =>
          match E.evalExpr jsExpr r with
          | .ok v => v
          | .error _ => .null
        .ok { data := data.map (fun r => setKey r target (fn r)), newCol := target }
      else
        .error "SyntaxError"
  | _ => .error "Script must be: newcol = expression"

/-- `Except.isOk` spelled locally. -/
def isErr {ε α : Type} : Except ε α → Bool
  | .error _ => true
  | .ok _ => false

/-- A witness engine: the JS parser rejects (at least) unbalanced
parentheses, so `mkFnOk` checks paren balance; evaluation always succeeds
with a constant. -/
def parenDepthOk : ℤ → List Char → Bool
  | d, [] => d == 0
  | d, '(' :: r => parenDepthOk (d + 1) r
  | d, ')' :: r => decide (0 < d) && parenDepthOk (d - 1) r
  | d, _ :: r => parenDepthOk d r

def demoEngine : JSDyn where
  mkFnOk := fun s => parenDepthOk 0 s.data
  evalExpr := fun _ _ => .ok (.num 1)

/-- A witness engine whose evaluation throws on every row (e.g. the
expression calls an undefined global). -/
def throwingEngine : JSDyn where
  mkFnOk := fun _ => true
  evalExpr := fun _ _ => .error ()

/-!
### The `App` component state machine

React state updates inside one handler are modelled sequentially (every
`set*` call in the source either writes a distinct field or uses the
functional-update form, so the handlers are order-insensitive up to this
sequencing).  `Date.now()` is the explicit parameter `now`.
-/

/-- `clone` (App.tsx:33-35): `JSON.parse(JSON.stringify(obj))`.  On the
pure values of this model (no `undefined`, no functions, no sharing) the
JSON round trip is the identity. -/
def clone {α : Type} (x : α) : α := x

/-- One entry of the pipeline / provenance log. -/
structure PipeEntry where
  desc : String
  data : Option (List Row)
  cols : Option (List String)
  ts : ℕ
  deriving DecidableEq

structure LogEntry where
  ts : ℕ
  action : String
  level : ℕ
  deriving DecidableEq

structure Counts where
  clicks : ℕ
  levelChanges : ℕ
  filters : ℕ
  scripts : ℕ
  deriving DecidableEq

/-- The `useState`/`useRef` cells of `App` (App.tsx:143-163,199-202). -/
structure AppState where
  level : ℕ
  data : Option (List Row)
  cols : Option (List String)
  x : Option String
  y : Option String
  chartType : String
  pipeline : List PipeEntry
  logs : List LogEntry
  nudge : Option String
  lastSnapshot : Option (Option (List Row) × Option (List String))
  counts : Counts
  deriving DecidableEq

def initState : AppState where
  level := 1
  data := none
  cols := none
  x := none
  y := none
  chartType := "scatter"
  pipeline := []
  logs := []
  nudge := none
  lastSnapshot := none
  counts := ⟨0, 0, 0, 0⟩

def incClicks (σ : AppState) : AppState :=
  { σ with counts := { σ.counts with clicks := σ.counts.clicks + 1 } }

def incFilters (σ : AppState) : AppState :=
  { σ with counts := { σ.counts with filters := σ.counts.filters + 1 } }

def incScripts (σ : AppState) : AppState :=
  { σ with counts := { σ.counts with scripts := σ.counts.scripts + 1 } }

def incLevelChanges (σ : AppState) : AppState :=
  { σ with counts := { σ.counts with levelChanges := σ.counts.levelChanges + 1 } }

/-- `addPipeline` (App.tsx:165-178): prepend a deep-cloned snapshot entry,
truncate to 100 entries, and log the action. -/
def addPipeline (now : ℕ) (desc : String) (snapshotData : Option (List Row))
    (snapshotCols : Option (List String)) (σ : AppState) : AppState :=
  let entry : PipeEntry :=
    { desc := desc
      data := clone snapshotData
      cols := match snapshotCols with | some c => some (clone c) | none => none
      ts := now }
  { σ with
    pipeline := (entry :: σ.pipeline).take 100
    logs := { ts := now, action := desc, level := σ.level } :: σ.logs }

/-- `computeDiff` (App.tsx:129-141): rows added/removed by JSON identity,
plus the newly appearing columns. -/
def jsonVal : JVal → String
  | .null => "null"
  | .bool true => "true"
  | .bool false => "false"
  | .num q => numToString q
  | .str s => jsonQuote s

def joinComma : List String → String
  | [] => ""
  | [s] => s
  | s :: r => s ++ "," ++ joinComma r

/-- `JSON.stringify` of a row object. -/
def jsonRow (r : Row) : String :=
  "\x7b" ++ joinComma (r.map (fun p => jsonQuote p.1 ++ ":" ++ jsonVal p.2)) ++ "\x7d"

def computeDiff (oldData newData : Option (List Row))
    (oldCols newCols : Option (List String)) : ℕ × ℕ × List String :=
  let oldStr := (oldData.getD []).map jsonRow
  let newStr := (newData.getD []).map jsonRow
  let removed := (oldStr.filter (fun s => !newStr.contains s)).length
  let added := (newStr.filter (fun s => !oldStr.contains s)).length
  let colsAdded := (newCols.getD []).filter (fun c => !(oldCols.getD []).contains c)
  (added, removed, colsAdded)

/-- `loadData` (App.tsx:204-213). -/
def loadData (now : ℕ) (d : List Row) (c : List String) (label : String)
    (σ : AppState) : AppState :=
  let σ1 := { σ with
    data := some d, cols := some c, x := none, y := none
    pipeline := []
    logs := [{ ts := now, action := label, level := σ.level }] }
  incClicks (addPipeline now label (some d) (some c) σ1)

/-- `handleLevelChange` (App.tsx:215-222). -/
def handleLevelChange (now : ℕ) (next : ℕ) (σ : AppState) : AppState :=
  incLevelChanges
    { σ with
      logs := { ts := now
                action := "Change level " ++ toString σ.level ++ " -> " ++ toString next
                level := σ.level } :: σ.logs
      level := next }

def filterNudge : String :=
  "Filters require Level 2 — slide to Level 2 to enable transforms."

def scriptNudge : String :=
  "Scripting requires Level 3 — slide to Level 3 to enable scripting."

/-- `applyFilterAction` (App.tsx:224-244).  Note: at level 1 a nudge is
set, but nothing returns early — the filter is applied regardless. -/
def applyFilterAction (now : ℕ) (expr : String) (σ : AppState) : AppState :=
  match σ.data with
  | none => σ
  | some d =>
      let σ1 := if σ.level = 1 then { σ with nudge := some filterNudge } else σ
      let σ2 := { incFilters σ1 with lastSnapshot := some (clone σ.data, clone σ.cols) }
      match applyFilter d expr with
      | .error _ => σ2
      | .ok filtered =>
          let σ3 := addPipeline now ("Filter: " ++ expr) (some filtered) σ.cols
            { σ2 with data := some filtered }
          { σ3 with logs :=
              { ts := now, action := "Filter applied: " ++ expr, level := σ3.level }
                :: σ3.logs }

/-- `undo` (App.tsx:246-259). -/
def undo (now : ℕ) (σ : AppState) : AppState :=
  match σ.lastSnapshot with
  | none => σ
  | some (pd, pc) =>
      let diff := computeDiff σ.data pd σ.cols pc
      let desc := "Undo: revert (" ++ toString diff.1 ++ " added, "
        ++ toString diff.2.1 ++ " removed, colsAdded: "
        ++ toString diff.2.2.length ++ ")"
      let σ1 := addPipeline now desc pd pc { σ with data := pd, cols := pc }
      incClicks { σ1 with lastSnapshot := none }

/-- First-occurrence deduplication, the order-preserving semantics of
`Array.from(new Set(l))`. -/
def dedupGo (seen : List String) : List String → List String
  | [] => []
  | x :: xs => if seen.contains x then dedupGo seen xs else x :: dedupGo (x :: seen) xs

def dedupKeepFirst (l : List String) : List String := dedupGo [] l

/-- `applyScriptAction` (App.tsx:261-284).  Note: at level ≤ 2 a nudge is
set, but nothing returns early — the script is run regardless. -/
def applyScriptAction (E : JSDyn) (now : ℕ) (script : String) (σ : AppState) :
    AppState :=
  match σ.data, σ.cols with
  | some d, some cs =>
      let σ1 := if σ.level ≤ 2 then { σ with nudge := some scriptNudge } else σ
      let σ2 := { incScripts σ1 with lastSnapshot := some (clone σ.data, clone σ.cols) }
      match applyScriptSafe E d cs script with
      | .error _ => σ2
      | .ok res =>
          let newCols := dedupKeepFirst (cs ++ [res.newCol])
          let σ3 := addPipeline now ("Script: " ++ script) (some res.data) (some newCols)
            { σ2 with data := some res.data, cols := some newCols }
          { σ3 with logs :=
              { ts := now, action := "Script run: " ++ script, level := σ3.level }
                :: σ3.logs }
  | _, _ => σ

/-- `revertToPipeline` (App.tsx:286-305). -/
def revertToPipeline (now : ℕ) (idx : ℕ) (σ : AppState) : AppState :=
  match σ.pipeline.get? idx with
  | none => σ
  | some entry =>
      let diff := computeDiff σ.data entry.data σ.cols entry.cols
      let desc := "Revert to: " ++ entry.desc ++ " (rows+" ++ toString diff.1
        ++ ", -" ++ toString diff.2.1 ++ ", colsAdded:"
        ++ toString diff.2.2.length ++ ")"
      let σ1 := { σ with
        data := match entry.data with | some dd => some (clone dd) | none => none
        cols := match entry.cols with | some cc => some (clone cc) | none => none }
      let σ2 := addPipeline now desc entry.data entry.cols σ1
      { σ2 with logs :=
          { ts := now
            action := "Reverted to pipeline[" ++ toString idx ++ "]: " ++ entry.desc
            level := σ2.level } :: σ2.logs }

/-- The “Sample” button (App.tsx:511-522): `data.slice(0, Math.min(10,
data.length))`. -/
def sampleAction (now : ℕ) (σ : AppState) : AppState :=
  match σ.data with
  | none => σ
  | some d =>
      let sampled := d.take 10
      incClicks (addPipeline now "Sampled 10 rows" (some sampled) σ.cols
        { σ with data := some sampled })

/-- The “Reset” quick action (App.tsx:705-717). -/
def resetAll (σ : AppState) : AppState :=
  { σ with data := none, cols := none, x := none, y := none
           pipeline := [], logs := [], nudge := none }

/-- The instrumentation “Reset” button (App.tsx:398-412). -/
def resetInstr (σ : AppState) : AppState :=
  { σ with logs := [], counts := ⟨0, 0, 0, 0⟩, pipeline := [] }

/-- The user-triggerable operations of the app. -/
inductive Action where
  | load (d : List Row) (c : List String) (label : String)
  | levelChange (next : ℕ)
  | filter (expr : String)
  | script (script : String)
  | sample
  | doUndo
  | revert (idx : ℕ)
  | reset
  | resetInstrumentation

def applyAction (E : JSDyn) (now : ℕ) : Action → AppState → AppState
  | .load d c label => loadData now d c label
  | .levelChange next => handleLevelChange now next
  | .filter expr => applyFilterAction now expr
  | .script s => applyScriptAction E now s
  | .sample => sampleAction now
  | .doUndo => undo now
  | .revert idx => revertToPipeline now idx
  | .reset => resetAll
  | .resetInstrumentation => resetInstr

def applyActions (E : JSDyn) (now : ℕ) (acts : List Action) (σ : AppState) :
    AppState :=
  acts.foldl (fun σ a => applyAction E now a σ) σ

/-!
### Helper lemmas: shape of the pipeline after each handler
-/

theorem addPipeline_pipeline_eq (now : ℕ) (desc : String) (d : Option (List Row))
    (c : Option (List String)) (σ : AppState) :
    (addPipeline now desc d c σ).pipeline =
      ({ desc := desc, data := d, cols := c, ts := now } :: σ.pipeline).take 100 := by
  cases c <;> simp [addPipeline, clone]

/-- The pipeline after any handler is the old pipeline, or one snapshot
entry prepended to it (truncated to 100). -/
def PipelinePreserved (σ σ' : AppState) : Prop :=
  σ'.pipeline = σ.pipeline ∨
    ∃ e : PipeEntry, σ'.pipeline = (e :: σ.pipeline).take 100

theorem pipelinePreserved_filter (now : ℕ) (expr : String) (σ : AppState) :
    PipelinePreserved σ (applyFilterAction now expr σ) := by
  unfold applyFilterAction PipelinePreserved
  cases hd : σ.data with
  | none => exact Or.inl rfl
  | some d =>
      cases hf : applyFilter d expr with
      | error e =>
          by_cases hl : σ.level = 1 <;> simp only [hd, hf, hl] <;>
            exact Or.inl rfl
      | ok filtered =>
          by_cases hl : σ.level = 1 <;> simp only [hd, hf, hl] <;>
            exact Or.inr ⟨_, rfl⟩

theorem pipelinePreserved_script (E : JSDyn) (now : ℕ) (script : String)
    (σ : AppState) : PipelinePreserved σ (applyScriptAction E now script σ) := by
  unfold applyScriptAction PipelinePreserved
  cases hd : σ.data with
  | none => exact Or.inl rfl
  | some d =>
      cases hc : σ.cols with
      | none => exact Or.inl rfl
      | some cs =>
          cases hf : applyScriptSafe E d cs script with
          | error e =>
              by_cases hl : σ.level ≤ 2 <;> simp only [hd, hc, hf, hl] <;>
                exact Or.inl rfl
          | ok res =>
              by_cases hl : σ.level ≤ 2 <;> simp only [hd, hc, hf, hl] <;>
                exact Or.inr ⟨_, rfl⟩

theorem pipelinePreserved_sample (now : ℕ) (σ : AppState) :
    PipelinePreserved σ (sampleAction now σ) := by
  unfold sampleAction PipelinePreserved
  cases hd : σ.data with
  | none => exact Or.inl rfl
  | some d => exact Or.inr ⟨_, rfl⟩

theorem pipelinePreserved_revert (now idx : ℕ) (σ : AppState) :
    PipelinePreserved σ (revertToPipeline now idx σ) := by
  unfold revertToPipeline PipelinePreserved
  cases he : σ.pipeline.get? idx with
  | none => exact Or.inl rfl
  | some entry => exact Or.inr ⟨_, rfl⟩

theorem pipelinePreserved_undo (now : ℕ) (σ : AppState) :
    PipelinePreserved σ (undo now σ) := by
  unfold undo PipelinePreserved
  cases hs : σ.lastSnapshot with
  | none => exact Or.inl rfl
  | some pr => exact Or.inr ⟨_, rfl⟩

theorem pipeline_length_le_of_preserved {σ σ' : AppState}
    (h : PipelinePreserved σ σ') (hle : σ.pipeline.length ≤ 100) :
    σ'.pipeline.length ≤ 100 := by
  rcases h with h | ⟨e, h⟩
  · rw [h]; exact hle
  · rw [h]; simp

theorem applyAction_pipeline_length (E : JSDyn) (now : ℕ) (a : Action)
    (σ : AppState) (h : σ.pipeline.length ≤ 100) :
    (applyAction E now a σ).pipeline.length ≤ 100 := by
  cases a with
  | load d c label =>
      simp [applyAction, loadData, incClicks, addPipeline_pipeline_eq]
  | levelChange next => simp only [applyAction, handleLevelChange, incLevelChanges]; exact h
  | filter expr =>
      exact pipeline_length_le_of_preserved (pipelinePreserved_filter now expr σ) h
  | script s =>
      exact pipeline_length_le_of_preserved (pipelinePreserved_script E now s σ) h
  | sample =>
      exact pipeline_length_le_of_preserved (pipelinePreserved_sample now σ) h
  | doUndo =>
      exact pipeline_length_le_of_preserved (pipelinePreserved_undo now σ) h
  | revert idx =>
      exact pipeline_length_le_of_preserved (pipelinePreserved_revert now idx σ) h
  | reset => simp [applyAction, resetAll]
  | resetInstrumentation => simp [applyAction, resetInstr]

theorem applyActions_pipeline_length (E : JSDyn) (now : ℕ) (acts : List Action) :
    ∀ σ : AppState, σ.pipeline.length ≤ 100 →
      (applyActions E now acts σ).pipeline.length ≤ 100 := by
  induction acts with
  | nil => intro σ h; exact h
  | cons a rest ih =>
      intro σ h
      exact ih _ (applyAction_pipeline_length E now a σ h)

/-!
### Claims about the pipeline / provenance log
-/

/-- Claim C2: `revertToPipeline idx` sets the current data and columns
equal to the snapshot stored in the pipeline entry at `idx`, whatever
state the app is in when the revert happens. -/
theorem revertToPipeline_restores_snapshot (σ : AppState) (now idx : ℕ)
    (entry : PipeEntry) (h : σ.pipeline.get? idx = some entry) :
    (revertToPipeline now idx σ).data = entry.data ∧
      (revertToPipeline now idx σ).cols = entry.cols := by
  unfold revertToPipeline
  rw [h]
  cases hd : entry.data <;> cases hc : entry.cols <;>
    simp [addPipeline, clone, hd, hc]

/-- Witness for C2: a concrete revert of a two-step history restores the
first snapshot. -/
theorem revertToPipeline_restores_snapshot_witness :
    (revertToPipeline 7 1
      { initState with
          data := some [[("a", JVal.num 2)]]
          cols := some ["a", "b"]
          pipeline :=
            [{ desc := "Filter: a > 1", data := some [[("a", JVal.num 2)]],
               cols := some ["a"], ts := 1 },
             { desc := "Load dataset",
               data := some [[("a", JVal.num 1)], [("a", JVal.num 2)]],
               cols := some ["a"], ts := 0 }] }).data =
        some [[("a", JVal.num 1)], [("a", JVal.num 2)]] ∧
    (revertToPipeline 7 1
      { initState with
          data := some [[("a", JVal.num 2)]]
          cols := some ["a", "b"]
          pipeline :=
            [{ desc := "Filter: a > 1", data := some [[("a", JVal.num 2)]],
               cols := some ["a"], ts := 1 },
             { desc := "Load dataset",
               data := some [[("a", JVal.num 1)], [("a", JVal.num 2)]],
               cols := some ["a"], ts := 0 }] }).cols = some ["a"] :=
  revertToPipeline_restores_snapshot _ 7 1
    { desc := "Load dataset", data := some [[("a", JVal.num 1)], [("a", JVal.num 2)]],
      cols := some ["a"], ts := 0 } rfl

/-- Claim C7: the four data transformations (filter, script, sample,
revert) never rewrite an existing pipeline entry: each leaves the pipeline
untouched or prepends one fresh snapshot entry, keeping all retained old
entries (up to the 100-entry truncation) byte-identical.  `addPipeline`
deep-clones its snapshot (`clone`), and in this pure-value model the stored
snapshots are immutable. -/
theorem transformations_preserve_pipeline_entries (E : JSDyn) (now idx : ℕ)
    (expr script : String) (σ : AppState) :
    PipelinePreserved σ (applyFilterAction now expr σ) ∧
      PipelinePreserved σ (applyScriptAction E now script σ) ∧
      PipelinePreserved σ (sampleAction now σ) ∧
      PipelinePreserved σ (revertToPipeline now idx σ) :=
  ⟨pipelinePreserved_filter now expr σ, pipelinePreserved_script E now script σ,
    pipelinePreserved_sample now σ, pipelinePreserved_revert now idx σ⟩

/-- Claim C10: starting from the initial state, any sequence of operations
leaves at most 100 pipeline entries, and `addPipeline` always places the
newly created snapshot entry at index 0. -/
theorem pipeline_bounded_most_recent_first (E : JSDyn) (now : ℕ)
    (acts : List Action) (desc : String) (d : Option (List Row))
    (c : Option (List String)) (σ : AppState) :
    (applyActions E now acts initState).pipeline.length ≤ 100 ∧
      (addPipeline now desc d c σ).pipeline.head? =
        some { desc := desc, data := d, cols := c, ts := now } := by
  constructor
  · exact applyActions_pipeline_length E now acts initState (by simp [initState])
  · rw [addPipeline_pipeline_eq]
    simp

/-!
### Helper lemmas: object update `{ ...r, [k]: v }`
-/

theorem rlookup_replaceFirstKey_self (r : Row) (k : String) (v : JVal) :
    hasKey r k = true → rlookup (replaceFirstKey r k v) k = some v := by
  induction r with
  | nil => intro h; simp [hasKey] at h
  | cons p rest ih =>
      obtain ⟨k', v'⟩ := p
      intro h
      by_cases hk : k' = k
      · simp [replaceFirstKey, hk, rlookup]
      · simp only [replaceFirstKey, if_neg hk, rlookup]
        apply ih
        simp only [hasKey, List.any_cons, Bool.or_eq_true, beq_iff_eq] at h
        rcases h with h | h
        · exact absurd h hk
        · simpa [hasKey] using h

theorem rlookup_append_single_self (r : Row) (k : String) (v : JVal)
    (h : hasKey r k = false) : rlookup (r ++ [(k, v)]) k = some v := by
  induction r with
  | nil => simp [rlookup]
  | cons p rest ih =>
      obtain ⟨k', v'⟩ := p
      simp only [hasKey, List.any_cons, Bool.or_eq_false_iff,
        beq_eq_false_iff_ne] at h
      simp only [List.cons_append, rlookup, if_neg h.1]
      exact ih h.2

/-- Looking up the written key finds the written value. -/
theorem rlookup_setKey_self (r : Row) (k : String) (v : JVal) :
    rlookup (setKey r k v) k = some v := by
  unfold setKey
  by_cases h : hasKey r k
  · rw [if_pos h]; exact rlookup_replaceFirstKey_self r k v h
  · rw [if_neg h]
    exact rlookup_append_single_self r k v (by simpa using h)

/-- Looking up any other key is unaffected by the update. -/
theorem rlookup_setKey_ne (r : Row) (k : String) (v : JVal) (c : String)
    (hc : c ≠ k) : rlookup (setKey r k v) c = rlookup r c := by
  have hkc : ¬(k = c) := fun e => hc e.symm
  unfold setKey
  by_cases h : hasKey r k
  · rw [if_pos h]
    clear h
    induction r with
    | nil => rfl
    | cons p rest ih =>
        obtain ⟨k', v'⟩ := p
        by_cases hk : k' = k
        · subst hk
          simp only [replaceFirstKey, if_pos rfl, rlookup]
          rw [if_neg hkc, if_neg hkc]
        · simp only [replaceFirstKey, if_neg hk, rlookup]
          by_cases hpc : k' = c
          · rw [if_pos hpc, if_pos hpc]
          · rw [if_neg hpc, if_neg hpc]; exact ih
  · rw [if_neg h]
    clear h
    induction r with
    | nil => simp [rlookup, if_neg hkc]
    | cons p rest ih =>
        obtain ⟨k', v'⟩ := p
        simp only [List.cons_append, rlookup]
        by_cases hpc : k' = c
        · rw [if_pos hpc, if_pos hpc]
        · rw [if_neg hpc, if_neg hpc]; exact ih

/-!
### Claims about the scripting DSL
-/

/-- The rewritten expression `jsExpr` that `applyScriptSafe` feeds to
`new Function` for a given column list and script. -/
def scriptExprOf (cols : List String) (script : String) : String :=
  buildExpression (jsTrim ((jsSplitEq script).getD 1 "")) cols

/-- The value the generated body produces for one row: the evaluated
expression, or `null` if the evaluation throws (the `catch`). -/
def scriptValue (E : JSDyn) (cols : List String) (script : String) (r : Row) : JVal :=
  match E.evalExpr (scriptExprOf cols script) r with
  | .ok v => v
  | .error _ => .null

/-- Claim C5 fails on the code: a script that splits into exactly two
parts can still make `applyScriptSafe` throw, because `new Function`
throws a `SyntaxError` when the rewritten expression (here the lone `)`)
does not parse. -/
theorem applyScriptSafe_syntaxError_counterexample :
    (jsSplitEq "a = )").length = 2 ∧
      isErr (applyScriptSafe demoEngine [] [] "a = )") = true := by
  constructor
  · decide
  · decide

/-- Claim C5 (amended): `applyScriptSafe` throws iff the script does not
split on `=` into exactly two parts, or the dynamic function construction
rejects the rewritten expression (`SyntaxError`); on success the new
column name is the trimmed left-hand side. -/
theorem applyScriptSafe_error_iff (E : JSDyn) (data : List Row)
    (cols : List String) (script : String) :
    (isErr (applyScriptSafe E data cols script) = true ↔
      ((jsSplitEq script).length ≠ 2 ∨
        E.mkFnOk (scriptExprOf cols script) = false)) ∧
    (∀ res, applyScriptSafe E data cols script = .ok res →
      res.newCol = jsTrim ((jsSplitEq script).getD 0 "")) := by
  rcases hs : jsSplitEq script with _ | ⟨a, _ | ⟨b, _ | ⟨c, t⟩⟩⟩ <;>
    simp only [applyScriptSafe, scriptExprOf, hs]
  · simp [isErr]
  · simp [isErr]
  · simp only [List.getD_cons_succ, List.getD_cons_zero]
    by_cases hm : E.mkFnOk (buildExpression (jsTrim b) cols)
    · simp [hm, isErr]
    · simp [hm, isErr]
  · simp [isErr]

/-- Witness for the amended C5: a well-formed script succeeds and names
the new column after the trimmed left-hand side. -/
theorem applyScriptSafe_error_iff_witness :
    ("newcol" : String) = jsTrim ((jsSplitEq "newcol = pop").getD 0 "") :=
  (applyScriptSafe_error_iff demoEngine [[("pop", JVal.num 5)]] ["pop"]
      "newcol = pop").2
    { data := [[("pop", JVal.num 5), ("newcol", JVal.num 1)]], newCol := "newcol" }
    rfl

/-- Claim C6: a successful script run only derives a column — the output
has exactly as many rows as the input, each output row agrees with its
input row on every column other than the new one, and the new column holds
the evaluated value. -/
theorem applyScriptSafe_frame (E : JSDyn) (data : List Row) (cols : List String)
    (script : String) (res : ScriptResult)
    (h : applyScriptSafe E data cols script = .ok res) :
    res.data.length = data.length ∧
      ∀ i r r', data.get? i = some r → res.data.get? i = some r' →
        (∀ c, c ≠ res.newCol → rlookup r' c = rlookup r c) ∧
          rlookup r' res.newCol = some (scriptValue E cols script r) := by
  unfold applyScriptSafe at h
  rcases hs : jsSplitEq script with _ | ⟨a, _ | ⟨b, _ | ⟨c0, t⟩⟩⟩ <;> rw [hs] at h
  · exact Except.noConfusion h
  · exact Except.noConfusion h
  · dsimp only at h
    by_cases hm : E.mkFnOk (buildExpression (jsTrim b) cols)
    · rw [if_pos hm] at h
      injection h with h
      subst h
      refine ⟨by simp, ?_⟩
      intro i r r' hi hr'
      rw [List.get?_map, hi] at hr'
      injection hr' with hr'
      subst hr'
      have hval : scriptValue E cols script r =
          match E.evalExpr (buildExpression (jsTrim b) cols) r with
          | .ok v => v
          | .error _ => .null := by
        unfold scriptValue scriptExprOf
        rw [hs]
        rfl
      refine ⟨fun c hc => rlookup_setKey_ne _ _ _ _ hc, ?_⟩
      rw [hval]
      exact rlookup_setKey_self _ _ _
    · rw [if_neg hm] at h
      exact Except.noConfusion h
  · exact Except.noConfusion h

/-- Witness for C6 at a concrete run. -/
theorem applyScriptSafe_frame_witness :
    rlookup [("pop", JVal.num 5), ("newcol", JVal.num 1)] "pop" =
        rlookup [("pop", JVal.num 5)] "pop" ∧
      rlookup [("pop", JVal.num 5), ("newcol", JVal.num 1)] "newcol" =
        some (scriptValue demoEngine ["pop"] "newcol = pop" [("pop", JVal.num 5)]) := by
  have h := (applyScriptSafe_frame demoEngine [[("pop", JVal.num 5)]] ["pop"]
    "newcol = pop"
    { data := [[("pop", JVal.num 5), ("newcol", JVal.num 1)]], newCol := "newcol" }
    rfl).2 0 [("pop", JVal.num 5)] [("pop", JVal.num 5), ("newcol", JVal.num 1)]
    rfl rfl
  exact ⟨h.1 "pop" (by decide), h.2⟩

/-- Claim C9: the generated body wraps the expression in `try`/`catch`, so
a row on which the evaluation throws gets `null` in the derived column and
the run still produces every row. -/
theorem applyScriptSafe_row_error_null (E : JSDyn) (data : List Row)
    (cols : List String) (script : String) (res : ScriptResult) (i : ℕ) (r : Row)
    (h : applyScriptSafe E data cols script = .ok res)
    (hi : data.get? i = some r)
    (he : E.evalExpr (scriptExprOf cols script) r = .error ()) :
    res.data.get? i = some (setKey r res.newCol JVal.null) ∧
      res.data.length = data.length := by
  unfold applyScriptSafe at h
  rcases hs : jsSplitEq script with _ | ⟨a, _ | ⟨b, _ | ⟨c0, t⟩⟩⟩ <;> rw [hs] at h
  · exact Except.noConfusion h
  · exact Except.noConfusion h
  · dsimp only at h
    by_cases hm : E.mkFnOk (buildExpression (jsTrim b) cols)
    · rw [if_pos hm] at h
      injection h with h
      subst h
      refine ⟨?_, by simp⟩
      rw [List.get?_map, hi]
      unfold scriptExprOf at he
      rw [hs] at he
      simp only [List.getD_cons_succ, List.getD_cons_zero] at he
      simp [he]
    · rw [if_neg hm] at h
      exact Except.noConfusion h
  · exact Except.noConfusion h

/-- Witness for C9: an engine whose evaluation always throws still yields
a full result, with `null` in the derived column. -/
theorem applyScriptSafe_row_error_null_witness :
    (ScriptResult.data
        { data := [[("x", JVal.num 3), ("c", JVal.null)]], newCol := "c" }).get? 0 =
      some (setKey [("x", JVal.num 3)] "c" JVal.null) := by
  have h := applyScriptSafe_row_error_null throwingEngine [[("x", JVal.num 3)]]
    ["x"] "c = x" { data := [[("x", JVal.num 3), ("c", JVal.null)]], newCol := "c" }
    0 [("x", JVal.num 3)] rfl rfl rfl
  exact h.1

/-!
### Claims about level gating
-/

/-- A loaded two-row dataset with the complexity slider at level 1. -/
def levelOneState : AppState :=
  { initState with
      level := 1
      data := some [[("a", JVal.str "x")], [("a", JVal.str "y")]]
      cols := some ["a"] }

/-- Claim C1 fails on the code: at level 1 `applyFilterAction` sets a
nudge but has no early return, so the filter is applied anyway and the
data changes. -/
theorem filterAction_level1_changes_data :
    levelOneState.level = 1 ∧
      (applyFilterAction 0 "a == \"x\"" levelOneState).data ≠ levelOneState.data := by
  constructor
  · rfl
  · decide

/-- Claim C1 (amended): the handlers themselves are not gated — with data
loaded, the filter action at level 1 (and the script action at level ≤ 2)
sets the corresponding nudge message and still applies the transformation
exactly as `applyFilter` / `applyScriptSafe` dictate.  (The UI enforces
the gating instead: the filter controls are only rendered at level ≥ 2 and
the script Run button is disabled below level 3.) -/
theorem levelGate_nudges_but_applies (E : JSDyn) (now : ℕ) (expr script : String)
    (σ : AppState) (d : List Row) (cs : List String)
    (hd : σ.data = some d) (hc : σ.cols = some cs) :
    (σ.level = 1 →
      (applyFilterAction now expr σ).nudge = some filterNudge ∧
        (applyFilterAction now expr σ).data =
          some (match applyFilter d expr with | .ok l => l | .error _ => d)) ∧
    (σ.level ≤ 2 →
      (applyScriptAction E now script σ).nudge = some scriptNudge ∧
        (applyScriptAction E now script σ).data =
          some (match applyScriptSafe E d cs script with
                | .ok res => res.data
                | .error _ => d)) := by
  constructor
  · intro h1
    unfold applyFilterAction
    rw [hd]
    dsimp only
    rw [if_pos h1]
    cases hf : applyFilter d expr with
    | error e => exact ⟨rfl, rfl⟩
    | ok filtered => exact ⟨rfl, rfl⟩
  · intro h2
    unfold applyScriptAction
    rw [hd, hc]
    dsimp only
    rw [if_pos h2]
    cases hf : applyScriptSafe E d cs script with
    | error e => exact ⟨rfl, rfl⟩
    | ok res => exact ⟨rfl, rfl⟩

/-- Witness for the amended C1 at a concrete level-1 state. -/
theorem levelGate_nudges_but_applies_witness :
    ((applyFilterAction 0 "a == \"x\"" levelOneState).nudge = some filterNudge ∧
        (applyFilterAction 0 "a == \"x\"" levelOneState).data =
          some (match applyFilter [[("a", JVal.str "x")], [("a", JVal.str "y")]]
                  "a == \"x\"" with
                | .ok l => l
                | .error _ => [[("a", JVal.str "x")], [("a", JVal.str "y")]])) ∧
      ((applyScriptAction demoEngine 0 "c = a" levelOneState).nudge =
          some scriptNudge ∧
        (applyScriptAction demoEngine 0 "c = a" levelOneState).data =
          some (match applyScriptSafe demoEngine
                  [[("a", JVal.str "x")], [("a", JVal.str "y")]] ["a"] "c = a" with
                | .ok res => res.data
                | .error _ => [[("a", JVal.str "x")], [("a", JVal.str "y")]])) := by
  have h := levelGate_nudges_but_applies demoEngine 0 "a == \"x\"" "c = a"
    levelOneState [[("a", JVal.str "x")], [("a", JVal.str "y")]] ["a"] rfl rfl
  exact ⟨h.1 rfl, h.2 (by decide)⟩

/-!
### Claims about `applyFilter`
-/

/-- Claim C4: `applyFilter` throws exactly when the expression is
non-empty and its trimmed form matches none of the five fixed patterns;
every matching expression is handled without throwing. -/
theorem applyFilter_error_iff (data : List Row) (expr : String) :
    isErr (applyFilter data expr) = true ↔
      (expr ≠ "" ∧ matchEqL (jsTrim expr).data = none ∧
        matchNeqL (jsTrim expr).data = none ∧
        matchGtL (jsTrim expr).data = none ∧
        matchLtL (jsTrim expr).data = none ∧
        matchContainsL (jsTrim expr).data = none) := by
  by_cases he : expr = ""
  · simp [applyFilter, he, isErr]
  · unfold applyFilter
    rw [if_neg he]
    dsimp only
    cases h1 : matchEqL (jsTrim expr).data <;>
      cases h2 : matchNeqL (jsTrim expr).data <;>
      cases h3 : matchGtL (jsTrim expr).data <;>
      cases h4 : matchLtL (jsTrim expr).data <;>
      cases h5 : matchContainsL (jsTrim expr).data <;>
      simp [isErr, he]

/-- Witness for C4: a non-matching expression makes `applyFilter` throw. -/
theorem applyFilter_error_iff_witness :
    isErr (applyFilter ([] : List Row) "garbage!") = true :=
  (applyFilter_error_iff [] "garbage!").mpr (by decide)

/-- Claim C8: whenever the expression matches one of the five supported
patterns, `applyFilter` succeeds and merely selects rows: its output is a
sublist of the input (rows unmodified, relative order preserved) of no
greater length. -/
theorem applyFilter_matched_sublist (data : List Row) (expr : String)
    (h : matchEqL (jsTrim expr).data ≠ none ∨ matchNeqL (jsTrim expr).data ≠ none ∨
      matchGtL (jsTrim expr).data ≠ none ∨ matchLtL (jsTrim expr).data ≠ none ∨
      matchContainsL (jsTrim expr).data ≠ none) :
    ∃ out, applyFilter data expr = .ok out ∧ List.Sublist out data ∧
      out.length ≤ data.length := by
  by_cases he : expr = ""
  · exact ⟨data, by simp [applyFilter, he], List.Sublist.refl data, le_refl _⟩
  · unfold applyFilter
    rw [if_neg he]
    dsimp only
    cases h1 : matchEqL (jsTrim expr).data <;>
      cases h2 : matchNeqL (jsTrim expr).data <;>
      cases h3 : matchGtL (jsTrim expr).data <;>
      cases h4 : matchLtL (jsTrim expr).data <;>
      cases h5 : matchContainsL (jsTrim expr).data <;>
      first
        | exact ⟨_, rfl, List.filter_sublist _, (List.filter_sublist _).length_le⟩
        | simp_all

/-- Witness for C8: a matching numeric filter selects a sublist. -/
theorem applyFilter_matched_sublist_witness :
    ∃ out, applyFilter [[("a", JVal.num 2)], [("a", JVal.num 0)]] "a > 1" = .ok out ∧
      List.Sublist out [[("a", JVal.num 2)], [("a", JVal.num 0)]] ∧
      out.length ≤ ([[("a", JVal.num 2)], [("a", JVal.num 0)]] : List Row).length :=
  applyFilter_matched_sublist _ "a > 1" (by decide)

/-!
### Claim about the expression rewriter
-/

theorem string_append_assoc (a b c : String) : (a ++ b) ++ c = a ++ (b ++ c) := by
  cases a with | mk la =>
  cases b with | mk lb =>
  cases c with | mk lc =>
  apply congrArg String.mk
  exact List.append_assoc la lb lc

/-- Escaping a column name and reading the escaped pattern back as a
literal regex recovers the name: the escape pass only makes
metacharacters literal. -/
theorem unescape_escape (l : List Char) :
    unescapeLitL (escapeRegExpL l) = l := by
  induction l with
  | nil => rfl
  | cons c r ih =>
      unfold escapeRegExpL
      by_cases hm : metaChar c
      · simp only [if_pos hm, List.cons_append, List.nil_append]
        simp [unescapeLitL, ih]
      · simp only [if_neg hm, List.cons_append, List.nil_append]
        have hc : c ≠ '\\' := fun e => hm (by rw [e]; decide)
        cases hr : escapeRegExpL r with
        | nil =>
            rw [hr] at ih
            simp only [unescapeLitL] at ih
            simp [unescapeLitL, ih.symm]
        | cons d t =>
            rw [hr] at ih
            simp [unescapeLitL, if_neg hc, ih]

theorem jsonEscChar_plain (ch : Char) (h : jsonPlainChar ch = true) :
    jsonEscChar ch = [ch] := by
  simp only [jsonPlainChar, Bool.not_eq_eq_eq_not, Bool.not_true,
    Bool.or_eq_false_iff, beq_eq_false_iff_ne, decide_eq_false_iff_not] at h
  obtain ⟨⟨h1, h2⟩, h3⟩ := h
  unfold jsonEscChar
  rw [if_neg h1, if_neg h2,
    if_neg (fun e => h3 (by rw [e]; decide)),
    if_neg (fun e => h3 (by rw [e]; decide)),
    if_neg (fun e => h3 (by rw [e]; decide)),
    if_neg (fun e => h3 (by rw [e]; decide)),
    if_neg (fun e => h3 (by rw [e]; decide)),
    if_neg h3]

theorem foldr_jsonEsc_plain (l : List Char)
    (h : ∀ ch ∈ l, jsonPlainChar ch = true) :
    l.foldr (fun c acc => jsonEscChar c ++ acc) ['"'] = l ++ ['"'] := by
  induction l with
  | nil => rfl
  | cons c r ih =>
      simp only [List.foldr_cons, List.cons_append]
      rw [jsonEscChar_plain c (h c (by simp)), ih (fun ch hch => h ch (by simp [hch]))]
      rfl

/-- On a string with no characters needing JSON escapes, `JSON.stringify`
just wraps it in quotes. -/
theorem jsonQuote_plain (c : String) (h : c.data.all jsonPlainChar = true) :
    jsonQuote c = "\"" ++ c ++ "\"" := by
  cases c with | mk l =>
  apply congrArg String.mk
  show '"' :: l.foldr (fun c acc => jsonEscChar c ++ acc) ['"'] =
    (['"'] ++ l) ++ ['"']
  rw [foldr_jsonEsc_plain l (by simpa [List.all_eq_true] using h)]
  rfl

theorem mem_insertByLen {x a : String} :
    ∀ {l : List String}, a ∈ insertByLen x l → a = x ∨ a ∈ l := by
  intro l
  induction l with
  | nil => intro h; simp [insertByLen] at h; exact Or.inl h
  | cons y ys ih =>
      intro h
      unfold insertByLen at h
      split at h
      · simp only [List.mem_cons] at h
        rcases h with h | h | h
        · exact Or.inl h
        · exact Or.inr (by simp [h])
        · exact Or.inr (by simp [h])
      · simp only [List.mem_cons] at h
        rcases h with h | h
        · exact Or.inr (by simp [h])
        · rcases ih h with h | h
          · exact Or.inl h
          · exact Or.inr (by simp [h])

theorem mem_jsSortDescLen {a : String} :
    ∀ {l : List String}, a ∈ jsSortDescLen l → a ∈ l := by
  intro l
  induction l with
  | nil => intro h; simp [jsSortDescLen] at h
  | cons x xs ih =>
      intro h
      simp only [jsSortDescLen, List.foldr_cons] at h
      rcases mem_insertByLen h with h | h
      · simp [h]
      · exact List.mem_cons_of_mem _ (ih h)

theorem foldl_congr_mem {α β : Type _} (l : List α) (f g : β → α → β)
    (h : ∀ a ∈ l, ∀ b, f b a = g b a) : ∀ s, l.foldl f s = l.foldl g s := by
  induction l with
  | nil => intro s; rfl
  | cons x xs ih =>
      intro s
      simp only [List.foldl_cons]
      rw [h x (by simp)]
      exact ih (fun a ha b => h a (by simp [ha]) b) _

/-- A dollar-free replacement string is not changed by `GetSubstitution`. -/
theorem expandDollar_no_dollar (m b a : List Char) :
    ∀ r : List Char, '$' ∉ r → expandDollar m b a r = r := by
  intro r
  induction r with
  | nil => intro _; rfl
  | cons c t ih =>
      intro h
      simp only [List.mem_cons, not_or] at h
      obtain ⟨h1, h2⟩ := h
      unfold expandDollar
      rw [if_neg (fun e => h1 e.symm), ih h2]

theorem replaceGo_no_dollar (pat repl : List Char) (h : '$' ∉ repl) :
    ∀ fuel pre s, replaceGo pat repl fuel pre s = replaceGoVerbatim pat repl fuel pre s := by
  intro fuel
  induction fuel with
  | zero => intro pre s; rfl
  | succ f ih =>
      intro pre s
      cases s with
      | nil => rfl
      | cons c rest =>
          unfold replaceGo replaceGoVerbatim
          dsimp only
          rw [expandDollar_no_dollar _ _ _ _ h, ih, ih]

theorem replaceEmptyGo_no_dollar (repl : List Char) (h : '$' ∉ repl) :
    ∀ s pre, replaceEmptyGo repl pre s = replaceEmptyGoVerbatim repl pre s := by
  intro s
  induction s with
  | nil =>
      intro pre
      unfold replaceEmptyGo replaceEmptyGoVerbatim
      rw [expandDollar_no_dollar _ _ _ _ h]
  | cons c rest ih =>
      intro pre
      unfold replaceEmptyGo replaceEmptyGoVerbatim
      rw [expandDollar_no_dollar _ _ _ _ h, ih]

/-- When the replacement contains no `$`, the faithful replace and the
verbatim replace agree. -/
theorem replaceWordAllL_no_dollar (pat repl s : List Char) (h : '$' ∉ repl) :
    replaceWordAllL pat repl s = replaceWordVerbatimL pat repl s := by
  cases pat with
  | nil => exact replaceEmptyGo_no_dollar repl h s []
  | cons p ps => exact replaceGo_no_dollar (p :: ps) repl h (s.length + 1) [] s

/-- Claim C3 fails on the code: for a column named `a$&b` (whose
characters `JSON.stringify` emits verbatim), JS `replace` expands the `$&`
inside the spliced lookup, so the result is not the literal
`__row["<name>"]` substitution the claim describes. -/
theorem buildExpression_dollar_counterexample :
    buildExpression "a$&b + 1" ["a$&b"] = "__row[\"aa$&bb\"] + 1" ∧
      buildExpression "a$&b + 1" ["a$&b"] ≠
        buildExpressionSpec "a$&b + 1" ["a$&b"] := by
  constructor
  · decide
  · decide

/-- Claim C3 (amended): for column names without JSON-escaped characters
and without `$` (on which JS `replace` would expand `$`-escape patterns in
the spliced lookup), `buildExpression` is exactly the word-boundary
substitution the specification describes: the seven safe function names
become their `Math.*` forms, then each column name — longest first, ties
in input order — becomes the verbatim `__row["<name>"]`; no parsing
happens, and the rewritten string is returned. -/
theorem buildExpression_is_word_substitution (expr : String) (cols : List String)
    (h : ∀ c ∈ cols, c.data.all (fun ch => jsonPlainChar ch && !(ch == '$')) = true) :
    buildExpression expr cols = buildExpressionSpec expr cols := by
  unfold buildExpression buildExpressionSpec
  apply congrArg chStr
  have hfun : SAFE_FUNCS.foldl (fun e p => replaceWordAllL p.1.data p.2.data e) expr.data =
      SAFE_FUNCS.foldl (fun e p => replaceWordVerbatimL p.1.data p.2.data e) expr.data := by
    apply foldl_congr_mem
    intro p hp e
    apply replaceWordAllL_no_dollar
    simp only [SAFE_FUNCS, List.mem_cons, List.not_mem_nil, or_false] at hp
    rcases hp with rfl | rfl | rfl | rfl | rfl | rfl | rfl <;> decide
  rw [hfun]
  apply foldl_congr_mem
  intro c hc e
  have hc' := h c (mem_jsSortDescLen hc)
  rw [List.all_eq_true] at hc'
  have hplain : c.data.all jsonPlainChar = true := by
    rw [List.all_eq_true]
    intro x hx
    have hax := hc' x hx
    simp only [Bool.and_eq_true] at hax
    exact hax.1
  have hnd : '$' ∉ c.data := fun hx => by
    have hax := hc' '$' hx
    simp at hax
  rw [unescape_escape]
  have hcol : colIdentifier c = "__row[" ++ "\"" ++ c ++ "\"" ++ "]" := by
    unfold colIdentifier
    rw [jsonQuote_plain c hplain]
    simp only [string_append_assoc]
  rw [hcol]
  apply replaceWordAllL_no_dollar
  intro hx
  simp only [String.data_append, List.mem_append] at hx
  rcases hx with (((hx | hx) | hx) | hx) | hx
  · exact absurd hx (by decide)
  · exact absurd hx (by decide)
  · exact hnd hx
  · exact absurd hx (by decide)
  · exact absurd hx (by decide)

/-- Witness for the amended C3 on a concrete expression and column list. -/
theorem buildExpression_is_word_substitution_witness :
    buildExpression "pow(pop, 2) + newpop" ["pop", "newpop"] =
      buildExpressionSpec "pow(pop, 2) + newpop" ["pop", "newpop"] :=
  buildExpression_is_word_substitution "pow(pop, 2) + newpop" ["pop", "newpop"]
    (by decide)

end PCExplorer
